import Mathlib

/-!
Verification of the text-to-structure parsers of the questionforecaster
repository (file embedding.py: QuizParser and AssignmentParser).

The Python code is shallowly embedded: strings are lists of characters,
Python string primitives (strip, lstrip, split, splitlines, substring
membership, str.replace) are modelled as executable Lean functions, the
two regular expressions of the source are modelled as explicit scanners
with the same leftmost / greedy semantics, Python numbers are Nat / Int /
Rat, and Python exceptions (KeyError, ValueError, IndexError) are
modelled with Except.

Modelling notes on character classes: Python's whitespace, digit and
line-terminator classes also contain rarer Unicode characters; the model
covers their ASCII parts, which is what the repository's data and these
claims exercise.  Python float() special forms (inf, nan, underscores)
are not modelled.
-/

set_option maxRecDepth 8000

/-! ## Character classes -/

def isPyWs (c : Char) : Bool :=
  c == ' ' || c == '\t' || c == '\n' || c == '\r' || c == '\x0b' || c == '\x0c'

def isDigitCh (c : Char) : Bool :=
  '0' ≤ c && c ≤ '9'

/-- Character class of the scenario-heading regex: [A-Za-z0-9 \-]. -/
def isNameChar (c : Char) : Bool :=
  ('A' ≤ c && c ≤ 'Z') || ('a' ≤ c && c ≤ 'z') || ('0' ≤ c && c ≤ '9') ||
    c == ' ' || c == '-'

/-- Line terminators recognized by str.splitlines (ASCII part). -/
def isLineTerm (c : Char) : Bool :=
  c == '\n' || c == '\r' || c == '\x0b' || c == '\x0c'

/-! ## Python string primitives on lists of characters -/

/-- Does the second list start with the first one? -/
def startsWithL : List Char → List Char → Bool
  | [], _ => true
  | _ :: _, [] => false
  | p :: ps, c :: cs => p == c && startsWithL ps cs

/-- Python substring membership: t in s. -/
def hasSub (t : List Char) : List Char → Bool
  | [] => startsWithL t []
  | c :: cs => startsWithL t (c :: cs) || hasSub t cs

/-- Python s.split(sep, 1): split at the first occurrence of sep; none
when sep does not occur. -/
def splitOnce (sep : List Char) : List Char → Option (List Char × List Char)
  | [] => if startsWithL sep [] then some ([], []) else none
  | c :: cs =>
    if startsWithL sep (c :: cs) then some ([], (c :: cs).drop sep.length)
    else
      match splitOnce sep cs with
      | some (pre, post) => some (c :: pre, post)
      | none => none

/-- Python s.lstrip() (leading whitespace). -/
def dropWs (l : List Char) : List Char := l.dropWhile isPyWs

/-- Python s.rstrip() (trailing whitespace). -/
def rdropWs (l : List Char) : List Char := (l.reverse.dropWhile isPyWs).reverse

/-- Python s.strip(). -/
def stripWs (l : List Char) : List Char := rdropWs (dropWs l)

/-- Python s.strip() on a whole string. -/
def pyStripStr (s : String) : String := String.mk (stripWs s.data)

/-- Python s.splitlines, accumulator form: acc holds the current line
reversed. -/
def splitLinesAux (acc : List Char) : List Char → List (List Char)
  | [] => if acc.isEmpty then [] else [acc.reverse]
  | '\r' :: '\n' :: rest => acc.reverse :: splitLinesAux [] rest
  | c :: rest =>
    if isLineTerm c then acc.reverse :: splitLinesAux [] rest
    else splitLinesAux (c :: acc) rest

/-- Python s.splitlines(): terminators end a line and are dropped; a final
unterminated fragment is a line; an empty final fragment is not. -/
def splitLinesPy (l : List Char) : List (List Char) := splitLinesAux [] l

/-- Python s.split() with no separator: maximal runs of non-whitespace,
no empty words. -/
def pySplitWs (l : List Char) : List (List Char) :=
  (l.foldr
    (fun c acc =>
      if isPyWs c then [] :: acc
      else
        match acc with
        | [] => [[c]]
        | w :: rest => (c :: w) :: rest)
    []).filter (fun w => !w.isEmpty)

/-- Python s.split(","): split at every comma, keeping empty parts. -/
def splitCommas (l : List Char) : List (List Char) :=
  l.foldr
    (fun c acc =>
      if c == ',' then [] :: acc
      else
        match acc with
        | [] => [[c]]
        | w :: rest => (c :: w) :: rest)
    [[]]

/-- Join word lists with a single character between them (str.join). -/
def joinWith (c : Char) : List (List Char) → List Char
  | [] => []
  | [w] => w
  | w :: ws => w ++ c :: joinWith c ws

/-! ## Python numeric conversions -/

/-- Numeric value of a digit string. -/
def natOfDigits (l : List Char) : Nat :=
  l.foldl (fun n c => 10 * n + (c.toNat - '0'.toNat)) 0

/-- Python int() restricted to the digit strings captured by the regex
group. -/
def pyInt? (l : List Char) : Option Nat :=
  if !l.isEmpty && l.all isDigitCh then some (natOfDigits l) else none

/-- The rational sgn * digits(ip ++ fp) * 10 ^ (ex - |fp|): the value of a
decimal literal, built with a single mkRat. -/
def decValue (sgn : Int) (ip fp : List Char) (ex : Int) : Rat :=
  let m : Int := sgn * (natOfDigits (ip ++ fp) : Int)
  match ex - (fp.length : Int) with
  | Int.ofNat k => mkRat (m * ((10 ^ k : Nat) : Int)) 1
  | Int.negSucc k => mkRat m (10 ^ (k + 1))

/-- Exponent part of a float literal, after the e or E. -/
def pyFloatExp (sgn : Int) (ip fp : List Char) (r : List Char) : Option Rat :=
  let se :=
    match r with
    | '+' :: t => ((1 : Int), t)
    | '-' :: t => ((-1 : Int), t)
    | t => ((1 : Int), t)
  let ed := se.2.takeWhile isDigitCh
  let r2 := se.2.dropWhile isDigitCh
  if ed.isEmpty || !r2.isEmpty then none
  else some (decValue sgn ip fp (se.1 * (natOfDigits ed : Int)))

/-- Python float() on ordinary decimal literals: optional surrounding
whitespace, optional sign, digits with optional fraction and optional
exponent; none on anything else. -/
def pyFloat? (l : List Char) : Option Rat :=
  let t := stripWs l
  let st :=
    match t with
    | '+' :: r => ((1 : Int), r)
    | '-' :: r => ((-1 : Int), r)
    | r => ((1 : Int), r)
  let ip := st.2.takeWhile isDigitCh
  let r1 := st.2.dropWhile isDigitCh
  let fr :=
    match r1 with
    | '.' :: r => (r.takeWhile isDigitCh, r.dropWhile isDigitCh)
    | r => (([] : List Char), r)
  if ip.isEmpty && fr.1.isEmpty then none
  else
    match fr.2 with
    | [] => some (decValue st.1 ip fr.1 0)
    | 'e' :: r3 => pyFloatExp st.1 ip fr.1 r3
    | 'E' :: r3 => pyFloatExp st.1 ip fr.1 r3
    | _ => none

/-! ## Literal markers of the source -/

def mQuestions : List Char := "Questions:".data
def mQuestion : List Char := "Question".data
def mPoints : List Char := "Points:".data
def mAnswerChoices : List Char := "Answer Choices:".data
def mDescription : List Char := "Description:".data
def mSubTypes : List Char := "Submission Types:".data
def mScenario : List Char := "Scenario:".data
def mDiscuss : List Char := "Items to discuss with your group:".data
def mElevator : List Char := "Be prepared to discuss in class (Elevator Pitch style):".data
def mContainment : List Char := "Containment".data
def mPostIncident : List Char := "Post-Incident Activities".data
def tokCORRECT : List Char := "[CORRECT]".data

/-- The three characters of the mis-decoded bullet sequence that the
source passes to lstrip (lstrip treats its argument as a character set). -/
def isMojibakeBullet (c : Char) : Bool :=
  c == 'â' || c == '€' || c == '¢'

/-- Python str.replace of the correctness token by the empty string, with
fuel (one character of input is consumed per step, so length + 1 fuel is
always enough): left-to-right, non-overlapping. -/
def removeTokF : Nat → List Char → List Char
  | 0, l => l
  | _, [] => []
  | f + 1, c :: cs =>
    if startsWithL tokCORRECT (c :: cs) then removeTokF f ((c :: cs).drop tokCORRECT.length)
    else c :: removeTokF f cs

def removeTok (l : List Char) : List Char := removeTokF (l.length + 1) l

/-! ## The quiz question regex: Question\s+(\d+):

A match at a position is: the literal Question, then one or more
whitespace characters (greedily), then one or more digits (greedily,
captured), then a colon.  Since the whitespace, digit and colon classes
are pairwise disjoint, maximal munch coincides with the backtracking
semantics of the regex engine. -/

def matchQuestionAt (l : List Char) : Option (List Char × List Char) :=
  if startsWithL mQuestion l then
    let r1 := l.drop mQuestion.length
    let ws := r1.takeWhile isPyWs
    if ws.isEmpty then none
    else
      let r2 := r1.dropWhile isPyWs
      let ds := r2.takeWhile isDigitCh
      if ds.isEmpty then none
      else
        let r3 := r2.dropWhile isDigitCh
        if startsWithL [':'] r3 then some (ds, r3.drop 1) else none
  else none

/-- re.split of the question pattern: the result is the fragment before
the first match, then alternately a captured digit group and the fragment
up to the next match.  Fuel-driven leftmost scan; every step consumes at
least one character, so length + 1 fuel is always enough. -/
def qsplitPartsF : Nat → List Char → List (List Char)
  | _, [] => [[]]
  | 0, l => [l]
  | f + 1, c :: cs =>
    match matchQuestionAt (c :: cs) with
    | some (ds, rest) => [] :: ds :: qsplitPartsF f rest
    | none =>
      match qsplitPartsF f cs with
      | [] => [[c]]
      | p :: ps => (c :: p) :: ps

def qsplitParts (l : List Char) : List (List Char) := qsplitPartsF (l.length + 1) l

/-- The captured numbers of the question pattern, in order of appearance
in the text (used to state the ordering claim independently of the
splitting machinery). -/
def markerIdxF : Nat → List Char → List Nat
  | _, [] => []
  | 0, _ => []
  | f + 1, c :: cs =>
    match matchQuestionAt (c :: cs) with
    | some (ds, rest) => natOfDigits ds :: markerIdxF f rest
    | none => markerIdxF f cs

def markerIndices (l : List Char) : List Nat := markerIdxF (l.length + 1) l

/-- The captured groups at the odd positions of a re.split result (the
list after dropping the leading fragment). -/
def pairCaps : List (List Char) → List (List Char)
  | d :: _ :: rest => d :: pairCaps rest
  | _ => []

/-- Shape invariant of the question re.split result after its leading
fragment: capture / block pairs, each capture a non-empty digit string. -/
def qpairsOK : List (List Char) → Bool
  | [] => true
  | [_] => false
  | d :: _ :: rest => !d.isEmpty && d.all isDigitCh && qpairsOK rest

/-! ## The scenario heading regex: ([A-Za-z0-9 \-]+)Scenario:

Greedy capture with backtracking: at a match position the engine takes
the maximal run of name characters and gives characters back until the
literal Scenario: follows; the longest capture that works wins. -/

def scenTryLen (l : List Char) : Nat → Option (List Char × List Char)
  | 0 => none
  | n + 1 =>
    if startsWithL mScenario (l.drop (n + 1)) then
      some (l.take (n + 1), l.drop (n + 1 + mScenario.length))
    else scenTryLen l n

def scenMatchAt (l : List Char) : Option (List Char × List Char) :=
  let run := (l.takeWhile isNameChar).length
  if run == 0 then none else scenTryLen l run

/-- re.split of the scenario pattern, analogous to qsplitPartsF. -/
def scenSplitPartsF : Nat → List Char → List (List Char)
  | _, [] => [[]]
  | 0, l => [l]
  | f + 1, c :: cs =>
    match scenMatchAt (c :: cs) with
    | some (cap, rest) => [] :: cap :: scenSplitPartsF f rest
    | none =>
      match scenSplitPartsF f cs with
      | [] => [[c]]
      | p :: ps => (c :: p) :: ps

def scenSplitParts (l : List Char) : List (List Char) := scenSplitPartsF (l.length + 1) l

/-- Shape invariant of the scenario re.split result after its leading
fragment: capture / block pairs, each capture a non-empty run of
name-class characters. -/
def scapsOK : List (List Char) → Bool
  | [] => true
  | [_] => false
  | cap :: _ :: rest => !cap.isEmpty && cap.all isNameChar && scapsOK rest

/-! ## Data model -/

structure Choice where
  text : String
  is_correct : Bool
deriving DecidableEq, Repr

structure Question where
  index : Nat
  question : String
  points : Option Rat
  choices : List Choice
deriving DecidableEq, Repr

structure QuizMeta where
  raw_header : String
deriving DecidableEq, Repr

structure ParsedQuiz where
  quiz_id : Int
  title : String
  meta : QuizMeta
  questions : List Question
deriving DecidableEq, Repr

/-- The input record received from the collaborator; id, title and
content model the presence or absence of the corresponding dict keys. -/
structure RawItem where
  id : Option Int
  title : Option String
  content : Option String
deriving DecidableEq, Repr

structure AssignMeta where
  raw_header : String
  points : Option Rat
  submission_types : List String
deriving DecidableEq, Repr

structure Scenario where
  name : String
  scenario : String
  containment : String
  post_incident_activities : String
  elevator_pitch : String
deriving DecidableEq, Repr

structure ParsedAssignment where
  assignment_id : Int
  title : String
  meta : AssignMeta
  scenarios : List Scenario
deriving DecidableEq, Repr

/-- Python exceptions that the embedded code can raise. -/
inductive PyExc where
  | keyError
  | valueError
  | indexError
deriving DecidableEq, Repr

/-- Points payload of a line that starts with Points: , inside the try
block: split at the marker, strip, whitespace-split, first token, float;
any failure gives None. -/
def pointsPayloadVal (line : List Char) : Option Rat :=
  match (pySplitWs (stripWs (line.drop mPoints.length))).head? with
  | some tok => pyFloat? tok
  | none => none

/-! ## QuizParser -/

namespace QuizParser

/-- QuizParser._split_header_and_body. -/
def splitHeaderAndBody (content : String) : String × String :=
  match splitOnce mQuestions content.data with
  | some (before, after) =>
    (String.mk before, String.mk (after.dropWhile (fun c => c == '\n')))
  | none => ("", content)

/-- Scan the stripped lines of a question block for the first line that
starts with Points: ; return its parsed payload together with the lines
before and after it. -/
def findPointsSplit :
    List (List Char) → Option (Option Rat × List (List Char) × List (List Char))
  | [] => none
  | l :: rest =>
    if startsWithL mPoints l then some (pointsPayloadVal l, [], rest)
    else
      match findPointsSplit rest with
      | some (v, before, after) => some (v, l :: before, after)
      | none => none

/-- The lines after the first line starting with Answer Choices: . -/
def findChoiceLines : List (List Char) → Option (List (List Char))
  | [] => none
  | l :: rest => if startsWithL mAnswerChoices l then some rest else findChoiceLines rest

/-- Cleanup of one choice candidate line: lstrip the mis-decoded bullet
characters, lstrip hyphens, strip, detect and remove the correctness
token, drop the candidate if nothing is left. -/
def cleanChoiceLine (cl : List Char) : Option Choice :=
  let c1 := cl.dropWhile isMojibakeBullet
  let c2 := c1.dropWhile (fun c => c == '-')
  let c3 := stripWs c2
  let isc := hasSub tokCORRECT c3
  let c4 := stripWs (removeTok c3)
  if c4.isEmpty then none else some ⟨String.mk c4, isc⟩

/-- QuizParser._parse_question_block. -/
def parseQuestionBlock (block : List Char) : String × Option Rat × List Choice :=
  let lines0 := (splitLinesPy block).map stripWs
  let lines := ((lines0.dropWhile List.isEmpty).reverse.dropWhile List.isEmpty).reverse
  match findPointsSplit lines with
  | some (pv, before, rest) =>
    let qLines := before.filter (fun l => !l.isEmpty)
    let questionText := stripWs (joinWith ' ' qLines)
    let choiceLines : List (List Char) :=
      match findChoiceLines rest with
      | some ls => ls.filter (fun l => !l.isEmpty)
      | none => []
    (String.mk questionText, pv, choiceLines.filterMap cleanChoiceLine)
  | none =>
    let qLines := lines.filter (fun l => !l.isEmpty)
    (String.mk (stripWs (joinWith ' ' qLines)), none, [])

/-- The loop of QuizParser._parse_questions over the re.split result after
its leading fragment: int(parts[i]) can raise ValueError, parts[i + 1]
can raise IndexError. -/
def buildQuestions : List (List Char) → Except PyExc (List Question)
  | [] => .ok []
  | [d] =>
    match pyInt? d with
    | none => .error .valueError
    | some _ => .error .indexError
  | d :: b :: rest =>
    match pyInt? d with
    | none => .error .valueError
    | some n =>
      let qb := parseQuestionBlock b
      match buildQuestions rest with
      | .error e => .error e
      | .ok qs => .ok (⟨n, qb.1, qb.2.1, qb.2.2⟩ :: qs)

/-- QuizParser._parse_questions. -/
def parseQuestionsE (body : List Char) : Except PyExc (List Question) :=
  let parts := qsplitParts body
  if parts.length ≤ 1 then .ok []
  else buildQuestions parts.tail

/-- QuizParser.parse. -/
def parse (d : RawItem) : Except PyExc ParsedQuiz :=
  match d.id with
  | none => .error .keyError
  | some quizId =>
    let title := pyStripStr (d.title.getD "")
    let content := d.content.getD ""
    let hb := splitHeaderAndBody content
    match parseQuestionsE hb.2.data with
    | .error e => .error e
    | .ok qs => .ok ⟨quizId, title, ⟨pyStripStr hb.1⟩, qs⟩

end QuizParser

/-! ## AssignmentParser -/

namespace AssignmentParser

/-- AssignmentParser._split_header_and_body: note that the header part is
additionally stripped. -/
def splitHeaderAndBody (content : String) : String × String :=
  match splitOnce mDescription content.data with
  | some (before, after) =>
    (String.mk (stripWs before), String.mk (after.dropWhile (fun c => c == '\n')))
  | none => ("", content)

/-- AssignmentParser._parse_header: a fold over the header lines; a later
Points: or non-empty Submission Types: line overwrites an earlier one. -/
def parseHeader (header : String) : AssignMeta :=
  let step := fun (st : Option Rat × List String) (l0 : List Char) =>
    let line := stripWs l0
    if startsWithL mPoints line then (pointsPayloadVal line, st.2)
    else if startsWithL mSubTypes line then
      let payload := stripWs (line.drop mSubTypes.length)
      if payload.isEmpty then st
      else
        (st.1,
          (((splitCommas payload).map stripWs).filter (fun t => !t.isEmpty)).map String.mk)
    else st
  let st := (splitLinesPy header.data).foldl step (none, [])
  ⟨header, st.1, st.2⟩

/-- AssignmentParser._parse_scenario_block.  The second unpacking split
raises ValueError when Post-Incident Activities does not occur after the
first occurrence of Containment. -/
def parseScenarioBlock (name : String) (block : List Char) : Except PyExc Scenario :=
  let text := stripWs block
  let sd :=
    match splitOnce mDiscuss text with
    | some (before, after) => (stripWs before, stripWs after)
    | none => (text, ([] : List Char))
  let de :=
    match splitOnce mElevator sd.2 with
    | some (before, after) => (stripWs before, stripWs after)
    | none => (sd.2, ([] : List Char))
  let discussionText := de.1
  if hasSub mContainment discussionText && hasSub mPostIncident discussionText then
    match splitOnce mContainment discussionText with
    | none => .error .valueError
    | some (_, afterCont) =>
      match splitOnce mPostIncident afterCont with
      | none => .error .valueError
      | some (contPart, afterPost) =>
        .ok ⟨name, String.mk (joinWith ' ' (pySplitWs sd.1)),
          String.mk (stripWs (stripWs contPart)),
          String.mk (stripWs (stripWs afterPost)),
          String.mk (stripWs de.2)⟩
  else
    .ok ⟨name, String.mk (joinWith ' ' (pySplitWs sd.1)),
      String.mk (stripWs discussionText),
      String.mk (stripWs ([] : List Char)),
      String.mk (stripWs de.2)⟩

/-- The loop of AssignmentParser._parse_scenarios over the re.split
result after its leading fragment. -/
def buildScenarios : List (List Char) → Except PyExc (List Scenario)
  | [] => .ok []
  | [_] => .error .indexError
  | cap :: blk :: rest =>
    match parseScenarioBlock (String.mk (stripWs cap)) blk with
    | .error e => .error e
    | .ok s =>
      match buildScenarios rest with
      | .error e => .error e
      | .ok ss => .ok (s :: ss)

/-- AssignmentParser._parse_scenarios. -/
def parseScenariosE (body : List Char) : Except PyExc (List Scenario) :=
  let parts := scenSplitParts body
  if parts.length ≤ 1 then .ok []
  else buildScenarios parts.tail

/-- AssignmentParser.parse. -/
def parse (d : RawItem) : Except PyExc ParsedAssignment :=
  match d.id with
  | none => .error .keyError
  | some aId =>
    let title := pyStripStr (d.title.getD "")
    let content := d.content.getD ""
    let hb := splitHeaderAndBody content
    let meta := parseHeader hb.1
    match parseScenariosE hb.2.data with
    | .error e => .error e
    | .ok ss => .ok ⟨aId, title, meta, ss⟩

end AssignmentParser

/-- The reduction prescribed by the specification for a prompt span (used
for the refinement comparison in claim C5): the list of the non-blank
trimmed lines of the span. -/
def specPromptLineList (s : String) : List String :=
  (((splitLinesPy s.data).map stripWs).filter (fun l => !l.isEmpty)).map String.mk

deriving instance DecidableEq for Except

/-! ## Concrete inputs used by the claim theorems -/

/-- A scenario block whose discussion region has Post-Incident Activities
before Containment (and no later occurrence of the former). -/
def c1Item : RawItem :=
  ⟨some 1, some "T",
    some "Description:AScenario:s\nItems to discuss with your group:\nPost-Incident Activities\nfoo\nContainment\nbar"⟩

/-- Quiz content whose question markers carry decreasing numbers. -/
def c2Item : RawItem :=
  ⟨some 1, none, some "Questions:\nQuestion 2:\nA\nQuestion 1:\nB"⟩

/-- The concrete Scenario 1 input of the specification (with a real
bullet glyph in the choice lines). -/
def c3Item : RawItem :=
  ⟨some 1, some "T",
    some "Quiz: T\n\nQuestions:\n\nQuestion 1:\nQ text\nPoints: 1.0\n\nAnswer Choices:\n  • A [CORRECT]\n  • B\n\n"⟩

/-- Content with no Questions: marker but with a question pattern. -/
def c4Item : RawItem :=
  ⟨some 1, none, some "Question 1:\nX"⟩

/-- A scenario whose containment span contains an interior blank line. -/
def c5Item : RawItem :=
  ⟨some 1, some "T",
    some "Description:AScenario:s\nItems to discuss with your group:\nContainment\nWhat?\n\nWhy?\nPost-Incident Activities\nlater\nBe prepared to discuss in class (Elevator Pitch style):\npitch"⟩

/-- A body whose only heading match is in the middle of a prose line. -/
def c6Item : RawItem :=
  ⟨some 1, none, some "Description:intro XyzzyQuuxScenario:hello"⟩

/-- A choice line on which one replacement pass leaves a token. -/
def c8Item : RawItem :=
  ⟨some 1, none,
    some "Questions:Question 1:\nq\nPoints: 1\n\nAnswer Choices:\n[CORR[CORRECT]ECT]\n"⟩

/-- Small input for the witnesses of the general theorems. -/
def w2Item : RawItem := ⟨some 1, none, some "Questions:Question 7:x"⟩

def w2Rec : ParsedQuiz := ⟨1, "", ⟨""⟩, [⟨7, "x", none, []⟩]⟩

def w56Item : RawItem := ⟨some 1, none, some "Description:AbScenario:x"⟩

def w56Rec : ParsedAssignment := ⟨1, "", ⟨"", none, []⟩, [⟨"Ab", "x", "", "", ""⟩]⟩

def w56Scen : Scenario := ⟨"Ab", "x", "", "", ""⟩

/-! ## Claim theorems: concrete evaluations -/

/-- Claim C1: the claim (and the specification, and the fallback comment
in the source itself) say that a discussion region whose markers are not
all present in canonical order is folded whole into the containment
bucket without raising.  On a block where Post-Incident Activities
precedes Containment the code instead raises ValueError: both markers
are present, so the code takes the splitting branch, and the unpacking
of the second split fails because Post-Incident Activities does not
occur after the first Containment.  This theorem evaluates the embedded
code at that failing input. -/
theorem c1_reordered_headings_raise :
    AssignmentParser.parse c1Item = .error .valueError := by decide

/-- Claim C2, counterexample: on content whose markers carry the numbers
2 then 1, the parsed index sequence is [2, 1], and the adjacent pair
violates the claimed strict increase. -/
theorem c2_counterexample :
    (QuizParser.parse c2Item).map (fun r => r.questions.map (fun q => q.index)) =
      .ok [2, 1] ∧ ¬ (2 < 1) :=
  ⟨by decide, by decide⟩

/-- Claim C3, counterexample: on the specification's own Scenario 1
input the literal bullet glyph is NOT stripped (lstrip is given the
three characters of the mis-decoded bullet, a set that does not contain
the real bullet), so the first choice text is the bullet followed by A,
not A as the claim states. -/
theorem c3_counterexample :
    (QuizParser.parse c3Item).map (fun r => r.questions) =
      .ok [⟨1, "Q text", some 1, [⟨"• A", true⟩, ⟨"• B", false⟩]⟩] ∧
    ("• A" : String) ≠ "A" :=
  ⟨by decide, by decide⟩

/-- Claim C3, amended: the full parse of the Scenario 1 input, with the
bullet glyph retained in the choice texts (only the mis-decoded bullet
characters and hyphens are stripped). -/
theorem c3_amended_eval :
    QuizParser.parse c3Item =
      .ok ⟨1, "T", ⟨"Quiz: T"⟩,
        [⟨1, "Q text", some 1, [⟨"• A", true⟩, ⟨"• B", false⟩]⟩]⟩ := by decide

/-- Claim C4, counterexample: on content with no Questions: marker the
whole content becomes the BODY (header is empty), so raw_header is the
empty string rather than the trimmed content, and the questions list is
parsed from the content and need not be empty. -/
theorem c4_counterexample :
    (QuizParser.parse c4Item).map
        (fun r => (r.meta.raw_header, r.questions.map (fun q => q.index))) =
      .ok ("", [1]) ∧
    ("" : String) ≠ pyStripStr "Question 1:\nX" ∧ ([1] : List Nat) ≠ [] :=
  ⟨by decide, by decide, by decide⟩

/-- Claim C5, counterexample: a prompt field of the parsed record is a
single raw string that retains an interior blank line, while the
specification's reduction of that span is a two-element list of
non-blank trimmed lines; the record also nests no prompts object (its
fields are flat strings under the key scenarios, as the embedded record
type shows). -/
theorem c5_counterexample :
    (AssignmentParser.parse c5Item).map
        (fun r => r.scenarios.map (fun s => s.containment)) =
      .ok ["What?\n\nWhy?"] ∧
    specPromptLineList "What?\n\nWhy?" = ["What?", "Why?"] ∧
    (splitLinesPy "What?\n\nWhy?".data).contains [] = true :=
  ⟨by decide, by decide, by decide⟩

/-- Claim C6, counterexample: the segmenter produces a Section from a
heading match in the middle of a prose line; its name, intro XyzzyQuux,
contains preceding prose and belongs to no fixed closed set of labels,
and the heading never occurs as a standalone line of the body. -/
theorem c6_counterexample :
    (AssignmentParser.parse c6Item).map
        (fun r => r.scenarios.map (fun s => s.name)) =
      .ok ["intro XyzzyQuux"] ∧
    (splitLinesPy "intro XyzzyQuuxScenario:hello".data).all
        (fun l => !(l == "intro XyzzyQuuxScenario:".data)) = true :=
  ⟨by decide, by decide⟩

/-- Claim C7, counterexample: the assignment parser's header/body
splitter strips the header, so the header is not everything before the
first occurrence of the marker. -/
theorem c7_counterexample :
    AssignmentParser.splitHeaderAndBody " H \nDescription:\n\nB" = ("H", "B") ∧
    ("H" : String) ≠ " H \n" :=
  ⟨by decide, by decide⟩

/-- Claim C8, counterexample: on a choice line with overlapping token
occurrences, the single left-to-right replacement pass leaves a token
occurrence in the produced text, so the text does not exclude the token. -/
theorem c8_counterexample :
    (QuizParser.parse c8Item).map (fun r => r.questions.map (fun q => q.choices)) =
      .ok [[⟨"[CORRECT]", true⟩]] ∧
    hasSub tokCORRECT "[CORRECT]".data = true :=
  ⟨by decide, by decide⟩

/-! ## General lemmas about the string primitives -/

theorem startsWithL_iff : ∀ (p l : List Char), startsWithL p l = true ↔ ∃ t, l = p ++ t
  | [], l => by simp [startsWithL]
  | p :: ps, [] => by simp [startsWithL]
  | p :: ps, c :: cs => by
    simp only [startsWithL, Bool.and_eq_true, beq_iff_eq]
    constructor
    · rintro ⟨rfl, h⟩
      obtain ⟨t, rfl⟩ := (startsWithL_iff ps cs).mp h
      exact ⟨t, rfl⟩
    · rintro ⟨t, ht⟩
      injection ht with h1 h2
      subst h1
      exact ⟨rfl, (startsWithL_iff ps cs).mpr ⟨t, h2⟩⟩

theorem startsWithL_le {p l : List Char} (h : startsWithL p l = true) :
    p.length ≤ l.length := by
  obtain ⟨t, rfl⟩ := (startsWithL_iff p l).mp h
  simp

theorem hasSub_iff (t : List Char) : ∀ l, hasSub t l = true ↔ ∃ a b, l = a ++ t ++ b
  | [] => by
    simp only [hasSub, startsWithL_iff]
    constructor
    · rintro ⟨b, hb⟩
      exact ⟨[], b, by simpa using hb⟩
    · rintro ⟨a, b, hab⟩
      rw [List.nil_eq, List.append_assoc, List.append_eq_nil] at hab
      exact ⟨b, by simp [hab.1, hab.2]⟩
  | c :: cs => by
    simp only [hasSub, Bool.or_eq_true]
    constructor
    · rintro (h | h)
      · obtain ⟨b, hb⟩ := (startsWithL_iff t _).mp h
        exact ⟨[], b, by simpa using hb⟩
      · obtain ⟨a, b, hab⟩ := (hasSub_iff t cs).mp h
        exact ⟨c :: a, b, by simp [hab]⟩
    · rintro ⟨a, b, hab⟩
      cases a with
      | nil => exact Or.inl ((startsWithL_iff t _).mpr ⟨b, by simpa using hab⟩)
      | cons a0 as =>
        rw [List.cons_append, List.cons_append] at hab
        injection hab with h1 h2
        exact Or.inr ((hasSub_iff t cs).mpr ⟨as, b, h2⟩)

theorem splitOnce_isSome (sep : List Char) :
    ∀ l, (splitOnce sep l).isSome = hasSub sep l
  | [] => by
    unfold splitOnce hasSub
    split <;> simp_all
  | c :: cs => by
    unfold splitOnce hasSub
    cases hs : startsWithL sep (c :: cs) with
    | true => simp [hs]
    | false =>
      have ih := splitOnce_isSome sep cs
      simp only [hs, Bool.false_eq_true, if_false, Bool.false_or]
      cases ho : splitOnce sep cs with
      | some p =>
        rw [ho] at ih
        cases p with
        | mk a b => simpa using ih
      | none =>
        rw [ho] at ih
        simpa using ih

theorem splitOnce_eq_some (sep : List Char) :
    ∀ l pre post, splitOnce sep l = some (pre, post) →
      l = pre ++ sep ++ post ∧
      ∀ pre2 post2, l = pre2 ++ sep ++ post2 → pre.length ≤ pre2.length
  | [], pre, post => by
    unfold splitOnce
    split
    · rename_i hs
      intro h
      injection h with h'
      injection h' with h1 h2
      subst h1
      subst h2
      obtain ⟨t, ht⟩ := (startsWithL_iff sep []).mp hs
      have hsep := List.append_eq_nil.mp ht.symm
      constructor
      · simp [hsep.1]
      · intro pre2 post2 h2
        simp
    · intro h
      exact absurd h (by simp)
  | c :: cs, pre, post => by
    unfold splitOnce
    split
    · rename_i hs
      intro h
      injection h with h'
      injection h' with h1 h2
      subst h1
      subst h2
      obtain ⟨t, ht⟩ := (startsWithL_iff sep (c :: cs)).mp hs
      constructor
      · rw [ht, List.drop_left]
        simp
      · intro pre2 post2 h2
        simp
    · rename_i hs
      split
      · rename_i a b ho
        intro h
        injection h with h'
        injection h' with h1 h2
        subst h1
        subst h2
        obtain ⟨hdec, hmin⟩ := splitOnce_eq_some sep cs a b ho
        constructor
        · rw [List.cons_append, List.cons_append, ← hdec]
        · intro pre2 post2 h2
          cases pre2 with
          | nil =>
            exfalso
            rw [List.nil_append] at h2
            exact hs ((startsWithL_iff sep (c :: cs)).mpr ⟨post2, h2⟩)
          | cons p2 ps2 =>
            rw [List.cons_append, List.cons_append] at h2
            injection h2 with h21 h22
            have := hmin ps2 post2 h22
            simpa using Nat.succ_le_succ this
      · intro h
        exact absurd h (by simp)

theorem splitOnce_eq_none (sep : List Char) :
    ∀ l, splitOnce sep l = none → ∀ pre post, l ≠ pre ++ sep ++ post := by
  intro l h pre post hdec
  have h1 : hasSub sep l = true := (hasSub_iff sep l).mpr ⟨pre, post, hdec⟩
  have h2 := splitOnce_isSome sep l
  rw [h, h1] at h2
  simp at h2

/-! ## Claim C9 -/

/-- Claim C9: when the id key is absent from the input record, both
parsers propagate the fatal lookup failure (KeyError) and return no
partial record. -/
theorem c9_missing_id_fatal (d : RawItem) (h : d.id = none) :
    QuizParser.parse d = .error .keyError ∧
    AssignmentParser.parse d = .error .keyError := by
  constructor
  · unfold QuizParser.parse
    rw [h]
  · unfold AssignmentParser.parse
    rw [h]

/-- Witness for c9_missing_id_fatal at a concrete record without id. -/
theorem c9_witness :
    (⟨none, some "T", some "x"⟩ : RawItem).id = none ∧
    QuizParser.parse ⟨none, some "T", some "x"⟩ = .error .keyError ∧
    AssignmentParser.parse ⟨none, some "T", some "x"⟩ = .error .keyError := by
  refine ⟨rfl, ?_, ?_⟩
  · exact (c9_missing_id_fatal ⟨none, some "T", some "x"⟩ rfl).1
  · exact (c9_missing_id_fatal ⟨none, some "T", some "x"⟩ rfl).2

/-! ## Claim C7 -/

/-- Claim C7, amended: for both parsers, the header/body splitter finds
the first occurrence of its literal marker (the returned decomposition
is minimal), the body is everything after the marker with leading
newline characters stripped, and an absent marker yields ("", content);
the quiz splitter returns everything before the marker as the header,
while the assignment splitter additionally strips surrounding whitespace
from it. -/
theorem c7_split_header_and_body (content : String) :
    ((∀ pre post, splitOnce mQuestions content.data = some (pre, post) →
        content.data = pre ++ mQuestions ++ post ∧
        (∀ pre2 post2, content.data = pre2 ++ mQuestions ++ post2 →
          pre.length ≤ pre2.length) ∧
        QuizParser.splitHeaderAndBody content =
          (String.mk pre, String.mk (post.dropWhile (fun c => c == '\n')))) ∧
      (splitOnce mQuestions content.data = none →
        (∀ pre post, content.data ≠ pre ++ mQuestions ++ post) ∧
        QuizParser.splitHeaderAndBody content = ("", content))) ∧
    ((∀ pre post, splitOnce mDescription content.data = some (pre, post) →
        content.data = pre ++ mDescription ++ post ∧
        (∀ pre2 post2, content.data = pre2 ++ mDescription ++ post2 →
          pre.length ≤ pre2.length) ∧
        AssignmentParser.splitHeaderAndBody content =
          (String.mk (stripWs pre), String.mk (post.dropWhile (fun c => c == '\n')))) ∧
      (splitOnce mDescription content.data = none →
        (∀ pre post, content.data ≠ pre ++ mDescription ++ post) ∧
        AssignmentParser.splitHeaderAndBody content = ("", content))) := by
  refine ⟨⟨?_, ?_⟩, ?_, ?_⟩
  · intro pre post h
    obtain ⟨hdec, hmin⟩ := splitOnce_eq_some mQuestions content.data pre post h
    refine ⟨hdec, hmin, ?_⟩
    unfold QuizParser.splitHeaderAndBody
    rw [h]
  · intro h
    refine ⟨splitOnce_eq_none mQuestions content.data h, ?_⟩
    unfold QuizParser.splitHeaderAndBody
    rw [h]
  · intro pre post h
    obtain ⟨hdec, hmin⟩ := splitOnce_eq_some mDescription content.data pre post h
    refine ⟨hdec, hmin, ?_⟩
    unfold AssignmentParser.splitHeaderAndBody
    rw [h]
  · intro h
    refine ⟨splitOnce_eq_none mDescription content.data h, ?_⟩
    unfold AssignmentParser.splitHeaderAndBody
    rw [h]

/-- Witness for c7_split_header_and_body: the marker-present branches at
concrete contents. -/
theorem c7_witness :
    QuizParser.splitHeaderAndBody "aQuestions:\n\nb" = ("a", "b") ∧
    AssignmentParser.splitHeaderAndBody " h Description:\nB" = ("h", "B") := by
  constructor
  · have h := ((c7_split_header_and_body "aQuestions:\n\nb").1.1
      "a".data "\n\nb".data (by decide)).2.2
    exact h.trans (by decide)
  · have h := ((c7_split_header_and_body " h Description:\nB").2.1
      " h ".data "\nB".data (by decide)).2.2
    exact h.trans (by decide)

/-! ## Claim C4 -/

/-- Claim C4, amended: when the content has no Questions: marker, the
entire content becomes the body (the header, and hence raw_header, is
the empty string, not the trimmed content) and the questions are parsed
from the whole content; nothing is raised. -/
theorem c4_no_marker_body_is_content (d : RawItem) (n : Int) (hid : d.id = some n)
    (h : hasSub mQuestions (d.content.getD "").data = false) :
    QuizParser.parse d =
      (QuizParser.parseQuestionsE (d.content.getD "").data).map
        (fun qs => ⟨n, pyStripStr (d.title.getD ""), ⟨""⟩, qs⟩) := by
  have hnone : splitOnce mQuestions (d.content.getD "").data = none := by
    have hiso := splitOnce_isSome mQuestions (d.content.getD "").data
    rw [h] at hiso
    exact Option.not_isSome_iff_eq_none.mp (by simp [hiso])
  have hps : pyStripStr "" = "" := rfl
  simp only [QuizParser.parse, hid]
  simp only [QuizParser.splitHeaderAndBody, hnone]
  cases hq : QuizParser.parseQuestionsE (d.content.getD "").data with
  | error e => simp [Except.map]
  | ok qs => simp [Except.map, hps]

/-- Witness for c4_no_marker_body_is_content at a concrete record. -/
theorem c4_witness :
    (c4Item.id = some 1) ∧
    (hasSub mQuestions (c4Item.content.getD "").data = false) ∧
    QuizParser.parse c4Item =
      (QuizParser.parseQuestionsE (c4Item.content.getD "").data).map
        (fun qs => ⟨1, pyStripStr (c4Item.title.getD ""), ⟨""⟩, qs⟩) :=
  ⟨rfl, by decide, c4_no_marker_body_is_content c4Item 1 rfl (by decide)⟩

/-! ## Claim C10: totality of the quiz parser -/

theorem takeWhile_all (p : Char → Bool) : ∀ l : List Char, (l.takeWhile p).all p = true
  | [] => rfl
  | c :: cs => by
    rw [List.takeWhile_cons]
    cases hp : p c with
    | true => simp [hp, takeWhile_all p cs]
    | false => rfl

theorem matchQuestionAt_some {l ds rest : List Char}
    (h : matchQuestionAt l = some (ds, rest)) :
    rest.length < l.length ∧ ds.isEmpty = false ∧ ds.all isDigitCh = true := by
  unfold matchQuestionAt at h
  dsimp only at h
  split at h
  · rename_i hsw
    split at h
    · exact absurd h (by simp)
    · split at h
      · exact absurd h (by simp)
      · rename_i hds
        split at h
        · rename_i hcolon
          injection h with h'
          injection h' with h1 h2
          subst h1
          subst h2
          refine ⟨?_, by simpa using hds, takeWhile_all _ _⟩
          have e1 : (List.dropWhile isDigitCh
              (List.dropWhile isPyWs (l.drop mQuestion.length))).length ≤
              (List.dropWhile isPyWs (l.drop mQuestion.length)).length :=
            (List.dropWhile_sublist _).length_le
          have e2 : (List.dropWhile isPyWs (l.drop mQuestion.length)).length ≤
              (l.drop mQuestion.length).length :=
            (List.dropWhile_sublist _).length_le
          have e3 : (l.drop mQuestion.length).length = l.length - mQuestion.length :=
            List.length_drop _ _
          have e4 : mQuestion.length ≤ l.length := startsWithL_le hsw
          have e5 : 1 ≤ (List.dropWhile isDigitCh
              (List.dropWhile isPyWs (l.drop mQuestion.length))).length := by
            simpa using startsWithL_le hcolon
          have e6 : (List.drop 1 (List.dropWhile isDigitCh
              (List.dropWhile isPyWs (l.drop mQuestion.length)))).length =
              (List.dropWhile isDigitCh
                (List.dropWhile isPyWs (l.drop mQuestion.length))).length - 1 :=
            List.length_drop _ _
          have e7 : 0 < mQuestion.length := by decide
          omega
        · exact absurd h (by simp)
  · exact absurd h (by simp)

theorem qsplitPartsF_ne : ∀ (f : Nat) (l : List Char), qsplitPartsF f l ≠ []
  | _, [] => by simp [qsplitPartsF]
  | 0, _ :: _ => by simp [qsplitPartsF]
  | f + 1, c :: cs => by
    unfold qsplitPartsF
    cases hm : matchQuestionAt (c :: cs) with
    | some p => simp
    | none =>
      cases hq : qsplitPartsF f cs with
      | nil => simp
      | cons p ps => simp

theorem qsplit_good : ∀ (f : Nat) (l : List Char), l.length < f →
    qpairsOK (qsplitPartsF f l).tail = true := by
  intro f
  induction f with
  | zero => intro l h; omega
  | succ f ih =>
    intro l h
    cases l with
    | nil => simp [qsplitPartsF, qpairsOK]
    | cons c cs =>
      cases hm : matchQuestionAt (c :: cs) with
      | some p =>
        obtain ⟨ds, rest⟩ := p
        obtain ⟨hlen, hne, hdig⟩ := matchQuestionAt_some hm
        have hrest : rest.length < f := by
          simp only [List.length_cons] at h hlen
          omega
        have ih' := ih rest hrest
        cases hq : qsplitPartsF f rest with
        | nil => exact absurd hq (qsplitPartsF_ne f rest)
        | cons p ps =>
          rw [hq] at ih'
          simp only [List.tail_cons] at ih'
          simp only [qsplitPartsF, hm, hq, List.tail_cons, qpairsOK]
          simp [hne, hdig, ih']
      | none =>
        have hcs : cs.length < f := by
          simp only [List.length_cons] at h
          omega
        have ih' := ih cs hcs
        cases hq : qsplitPartsF f cs with
        | nil => exact absurd hq (qsplitPartsF_ne f cs)
        | cons p ps =>
          rw [hq] at ih'
          simp only [List.tail_cons] at ih'
          simp only [qsplitPartsF, hm, hq, List.tail_cons]
          exact ih'

theorem buildQuestions_ok :
    ∀ l, qpairsOK l = true → (QuizParser.buildQuestions l).isOk = true
  | [], _ => rfl
  | [d], h => by simp [qpairsOK] at h
  | d :: b :: rest, h => by
    simp only [qpairsOK, Bool.and_eq_true] at h
    obtain ⟨⟨h1, h2⟩, h3⟩ := h
    have ih := buildQuestions_ok rest h3
    have hint : pyInt? d = some (natOfDigits d) := by
      unfold pyInt?
      rw [if_pos (by simp [h1, h2])]
    cases hb : QuizParser.buildQuestions rest with
    | error e =>
      rw [hb] at ih
      simp [Except.isOk, Except.toBool] at ih
    | ok qs =>
      simp [QuizParser.buildQuestions, hint, hb, Except.isOk, Except.toBool]

theorem parseQuestionsE_ok (body : List Char) :
    (QuizParser.parseQuestionsE body).isOk = true := by
  show (if (qsplitParts body).length ≤ 1 then (Except.ok [] : Except PyExc (List Question))
      else QuizParser.buildQuestions (qsplitParts body).tail).isOk = true
  split
  · rfl
  · exact buildQuestions_ok _ (qsplit_good (body.length + 1) body (by omega))

/-- Claim C10: for every input record whose id key is present, the quiz
parser terminates with a structured record and raises nothing: every
malformed-content branch resolves to a defined default, so the error
branch of the embedded parser is unreachable. -/
theorem c10_quiz_parse_total (d : RawItem) (n : Int) (h : d.id = some n) :
    (QuizParser.parse d).isOk = true := by
  simp only [QuizParser.parse, h]
  have hq := parseQuestionsE_ok ((QuizParser.splitHeaderAndBody (d.content.getD "")).2).data
  cases hp : QuizParser.parseQuestionsE
      ((QuizParser.splitHeaderAndBody (d.content.getD "")).2).data with
  | error e =>
    rw [hp] at hq
    simp [Except.isOk, Except.toBool] at hq
  | ok qs => simp [Except.isOk, Except.toBool]

/-- Witness for c10_quiz_parse_total at a concrete record. -/
theorem c10_witness :
    (⟨some 5, none, some "no markers here"⟩ : RawItem).id = some 5 ∧
    (QuizParser.parse ⟨some 5, none, some "no markers here"⟩).isOk = true :=
  ⟨rfl, c10_quiz_parse_total ⟨some 5, none, some "no markers here"⟩ 5 rfl⟩

/-! ## Claim C2: order of indices -/

theorem qsplit_caps : ∀ (f : Nat) (l : List Char), l.length < f →
    (pairCaps (qsplitPartsF f l).tail).map natOfDigits = markerIdxF f l := by
  intro f
  induction f with
  | zero => intro l h; omega
  | succ f ih =>
    intro l h
    cases l with
    | nil => simp [qsplitPartsF, markerIdxF, pairCaps]
    | cons c cs =>
      cases hm : matchQuestionAt (c :: cs) with
      | some p =>
        obtain ⟨ds, rest⟩ := p
        obtain ⟨hlen, _, _⟩ := matchQuestionAt_some hm
        have hrest : rest.length < f := by
          simp only [List.length_cons] at h hlen
          omega
        have ih' := ih rest hrest
        cases hq : qsplitPartsF f rest with
        | nil => exact absurd hq (qsplitPartsF_ne f rest)
        | cons p ps =>
          rw [hq] at ih'
          simp only [List.tail_cons] at ih'
          simp only [qsplitPartsF, markerIdxF, hm, hq, List.tail_cons, pairCaps,
            List.map_cons]
          rw [ih']
      | none =>
        have hcs : cs.length < f := by
          simp only [List.length_cons] at h
          omega
        have ih' := ih cs hcs
        cases hq : qsplitPartsF f cs with
        | nil => exact absurd hq (qsplitPartsF_ne f cs)
        | cons p ps =>
          rw [hq] at ih'
          simp only [List.tail_cons] at ih'
          simp only [qsplitPartsF, markerIdxF, hm, hq, List.tail_cons]
          exact ih'

theorem buildQuestions_idx :
    ∀ l qs, QuizParser.buildQuestions l = .ok qs →
      qs.map (fun q => q.index) = (pairCaps l).map natOfDigits
  | [], qs, h => by
    injection h with h'
    subst h'
    rfl
  | [d], qs, h => by
    unfold QuizParser.buildQuestions at h
    cases hp : pyInt? d with
    | none => rw [hp] at h; exact absurd h (by simp)
    | some n => rw [hp] at h; exact absurd h (by simp)
  | d :: b :: rest, qs, h => by
    unfold QuizParser.buildQuestions at h
    cases hp : pyInt? d with
    | none => rw [hp] at h; exact absurd h (by simp)
    | some n =>
      rw [hp] at h
      dsimp only at h
      cases hb : QuizParser.buildQuestions rest with
      | error e => rw [hb] at h; exact absurd h (by simp)
      | ok qs' =>
        rw [hb] at h
        injection h with h'
        subst h'
        have hn : n = natOfDigits d := by
          unfold pyInt? at hp
          split at hp
          · injection hp with h''
            exact h''.symm
          · exact absurd hp (by simp)
        simp only [pairCaps, List.map_cons]
        rw [hn, buildQuestions_idx rest qs' hb]

/-- Claim C2, amended: the parsed question sequence matches the order in
which the Question markers appear in the body — the i-th question's
index is the i-th captured number — but the index values are whatever
numbers the markers carry: they need not be unique or strictly
increasing (see the counterexample). -/
theorem c2_indices_follow_markers (d : RawItem) (r : ParsedQuiz)
    (h : QuizParser.parse d = .ok r) :
    r.questions.map (fun q => q.index) =
      markerIndices ((QuizParser.splitHeaderAndBody (d.content.getD "")).2).data := by
  unfold QuizParser.parse at h
  cases hid : d.id with
  | none => rw [hid] at h; exact absurd h (by simp)
  | some n =>
    rw [hid] at h
    dsimp only at h
    cases hq : QuizParser.parseQuestionsE
        ((QuizParser.splitHeaderAndBody (d.content.getD "")).2).data with
    | error e => rw [hq] at h; exact absurd h (by simp)
    | ok qs =>
      rw [hq] at h
      dsimp only at h
      injection h with h'
      subst h'
      dsimp only
      have hcaps := qsplit_caps
        (((QuizParser.splitHeaderAndBody (d.content.getD "")).2).data.length + 1)
        ((QuizParser.splitHeaderAndBody (d.content.getD "")).2).data (by omega)
      have hqp : qsplitParts ((QuizParser.splitHeaderAndBody (d.content.getD "")).2).data =
          qsplitPartsF
            (((QuizParser.splitHeaderAndBody (d.content.getD "")).2).data.length + 1)
            ((QuizParser.splitHeaderAndBody (d.content.getD "")).2).data := rfl
      unfold QuizParser.parseQuestionsE at hq
      dsimp only at hq
      split at hq
      · rename_i hcond
        injection hq with h''
        subst h''
        have hne := qsplitPartsF_ne
          (((QuizParser.splitHeaderAndBody (d.content.getD "")).2).data.length + 1)
          ((QuizParser.splitHeaderAndBody (d.content.getD "")).2).data
        rw [← hqp] at hne
        have htail : (qsplitParts
            ((QuizParser.splitHeaderAndBody (d.content.getD "")).2).data).tail = [] := by
          cases hp : qsplitParts ((QuizParser.splitHeaderAndBody (d.content.getD "")).2).data with
          | nil => exact absurd hp hne
          | cons x xs =>
            rw [hp] at hcond
            simp only [List.length_cons] at hcond
            have : xs.length = 0 := by omega
            simp [List.eq_nil_of_length_eq_zero this]
        rw [← hqp, htail] at hcaps
        rw [markerIndices, ← hcaps]
        rfl
      · rename_i hcond
        have hidx := buildQuestions_idx _ qs hq
        rw [markerIndices, ← hcaps, ← hqp]
        exact hidx

/-- Witness for c2_indices_follow_markers at a concrete record. -/
theorem c2_witness :
    QuizParser.parse w2Item = .ok w2Rec ∧
    w2Rec.questions.map (fun q => q.index) =
      markerIndices ((QuizParser.splitHeaderAndBody (w2Item.content.getD "")).2).data :=
  ⟨by decide, c2_indices_follow_markers w2Item w2Rec (by decide)⟩

/-! ## Claim C8: correctness flag and the token -/

theorem hasSub_dropWhile (q : Char → Bool) (h0 : Char) (ts : List Char)
    (hq : q h0 = false) :
    ∀ l, hasSub (h0 :: ts) (l.dropWhile q) = hasSub (h0 :: ts) l
  | [] => rfl
  | c :: cs => by
    rw [List.dropWhile_cons]
    cases hc : q c with
    | false => simp [hc]
    | true =>
      rw [if_pos rfl]
      rw [hasSub_dropWhile q h0 ts hq cs]
      have hne : (h0 == c) = false := by
        cases hbe : h0 == c with
        | false => rfl
        | true =>
          exfalso
          have hec : h0 = c := by simpa using hbe
          rw [hec, hc] at hq
          exact Bool.true_eq_false.mp hq
      conv_rhs => rw [hasSub, startsWithL, hne]
      simp

theorem hasSub_rev (t l : List Char) : hasSub t.reverse l.reverse = hasSub t l := by
  rw [Bool.eq_iff_iff, hasSub_iff, hasSub_iff]
  constructor
  · rintro ⟨a, b, hab⟩
    refine ⟨b.reverse, a.reverse, ?_⟩
    have h2 := congrArg List.reverse hab
    rw [List.reverse_reverse] at h2
    rw [h2]
    simp [List.reverse_append, List.append_assoc]
  · rintro ⟨a, b, hab⟩
    refine ⟨b.reverse, a.reverse, ?_⟩
    rw [hab]
    simp [List.reverse_append, List.append_assoc]

theorem hasSub_rdropWhile (q : Char → Bool) (c0 : Char) (ts : List Char)
    (hq : q c0 = false) (l : List Char) :
    hasSub (ts ++ [c0]) ((l.reverse.dropWhile q).reverse) = hasSub (ts ++ [c0]) l := by
  have hrevtok : (ts ++ [c0]).reverse = c0 :: ts.reverse := by
    simp
  have h1 : hasSub (ts ++ [c0]) ((l.reverse.dropWhile q).reverse) =
      hasSub (c0 :: ts.reverse) (l.reverse.dropWhile q) := by
    have h := hasSub_rev ((ts ++ [c0]).reverse) (l.reverse.dropWhile q)
    rw [List.reverse_reverse] at h
    rw [h, hrevtok]
  have h2 : hasSub (c0 :: ts.reverse) (l.reverse.dropWhile q) =
      hasSub (c0 :: ts.reverse) l.reverse :=
    hasSub_dropWhile q c0 ts.reverse hq l.reverse
  have h3 : hasSub (c0 :: ts.reverse) l.reverse = hasSub (ts ++ [c0]) l := by
    have := hasSub_rev (ts ++ [c0]) l
    rw [hrevtok] at this
    exact this
  rw [h1, h2, h3]

/-- Claim C8, amended: the produced is_correct flag is true exactly when
the original choice line contains the correctness token; the token is
removed by one left-to-right non-overlapping replacement pass, which can
leave a token occurrence when occurrences overlap (see the
counterexample), so the produced text does not always exclude it. -/
theorem c8_is_correct_iff_token (cl : List Char) (ch : Choice)
    (h : QuizParser.cleanChoiceLine cl = some ch) :
    ch.is_correct = hasSub tokCORRECT cl := by
  unfold QuizParser.cleanChoiceLine at h
  dsimp only at h
  split at h
  · exact absurd h (by simp)
  · injection h with h'
    subst h'
    dsimp only
    unfold stripWs dropWs rdropWs
    have e0 : tokCORRECT = '[' :: "CORRECT]".data := rfl
    have e1 : tokCORRECT = "[CORRECT".data ++ [']'] := rfl
    rw [e1]
    rw [hasSub_rdropWhile isPyWs ']' "[CORRECT".data (by decide)]
    rw [← e1, e0]
    rw [hasSub_dropWhile isPyWs '[' "CORRECT]".data (by decide)]
    rw [hasSub_dropWhile (fun c => c == '-') '[' "CORRECT]".data (by decide)]
    rw [hasSub_dropWhile isMojibakeBullet '[' "CORRECT]".data (by decide)]

/-- Witness for c8_is_correct_iff_token at a concrete choice line. -/
theorem c8_witness :
    QuizParser.cleanChoiceLine "x [CORRECT]".data = some ⟨"x", true⟩ ∧
    (⟨"x", true⟩ : Choice).is_correct = hasSub tokCORRECT "x [CORRECT]".data :=
  ⟨by decide, c8_is_correct_iff_token "x [CORRECT]".data ⟨"x", true⟩ (by decide)⟩

/-! ## Claim C6: section names are regex captures -/

theorem take_all_of_le (p : Char → Bool) :
    ∀ (l : List Char) (k : Nat), k ≤ (l.takeWhile p).length → (l.take k).all p = true
  | [], _, _ => by simp
  | _ :: _, 0, _ => rfl
  | c :: cs, k + 1, h => by
    rw [List.takeWhile_cons] at h
    cases hp : p c with
    | false => rw [hp] at h; simp at h
    | true =>
      rw [hp] at h
      simp at h
      rw [List.take_succ_cons, List.all_cons]
      simp [hp, take_all_of_le p cs k (by omega)]

theorem scenTryLen_some (l : List Char) :
    ∀ (m : Nat) (cap rest : List Char),
      m ≤ (l.takeWhile isNameChar).length →
      scenTryLen l m = some (cap, rest) →
      cap.isEmpty = false ∧ cap.all isNameChar = true ∧ rest.length < l.length
  | 0, cap, rest, _, h => by exact absurd h (by simp [scenTryLen])
  | n + 1, cap, rest, hm, h => by
    unfold scenTryLen at h
    split at h
    · rename_i hsc
      injection h with h'
      injection h' with h1 h2
      subst h1
      subst h2
      refine ⟨?_, take_all_of_le isNameChar l (n + 1) hm, ?_⟩
      · have hrun : (l.takeWhile isNameChar).length ≤ l.length :=
          (List.takeWhile_sublist _).length_le
        have hlen : (l.take (n + 1)).length = n + 1 := by
          rw [List.length_take]
          omega
        cases hte : l.take (n + 1) with
        | nil => rw [hte] at hlen; simp at hlen
        | cons x xs => rfl
      · have h9 : mScenario.length ≤ (l.drop (n + 1)).length := startsWithL_le hsc
        rw [List.length_drop] at h9
        rw [List.length_drop]
        have hpos : 0 < mScenario.length := by decide
        omega
    · exact scenTryLen_some l n cap rest (by omega) h

theorem scenMatchAt_some {l cap rest : List Char}
    (h : scenMatchAt l = some (cap, rest)) :
    cap.isEmpty = false ∧ cap.all isNameChar = true ∧ rest.length < l.length := by
  unfold scenMatchAt at h
  dsimp only at h
  split at h
  · exact absurd h (by simp)
  · exact scenTryLen_some l (l.takeWhile isNameChar).length cap rest (le_refl _) h

theorem scenSplitPartsF_ne : ∀ (f : Nat) (l : List Char), scenSplitPartsF f l ≠ []
  | _, [] => by simp [scenSplitPartsF]
  | 0, _ :: _ => by simp [scenSplitPartsF]
  | f + 1, c :: cs => by
    unfold scenSplitPartsF
    cases hm : scenMatchAt (c :: cs) with
    | some p => simp
    | none =>
      cases hq : scenSplitPartsF f cs with
      | nil => simp
      | cons p ps => simp

theorem scen_good : ∀ (f : Nat) (l : List Char), l.length < f →
    scapsOK (scenSplitPartsF f l).tail = true := by
  intro f
  induction f with
  | zero => intro l h; omega
  | succ f ih =>
    intro l h
    cases l with
    | nil => simp [scenSplitPartsF, scapsOK]
    | cons c cs =>
      cases hm : scenMatchAt (c :: cs) with
      | some p =>
        obtain ⟨cap, rest⟩ := p
        obtain ⟨hne, hnm, hlen⟩ := scenMatchAt_some hm
        have hrest : rest.length < f := by
          simp only [List.length_cons] at h hlen
          omega
        have ih' := ih rest hrest
        cases hq : scenSplitPartsF f rest with
        | nil => exact absurd hq (scenSplitPartsF_ne f rest)
        | cons p ps =>
          rw [hq] at ih'
          simp only [List.tail_cons] at ih'
          simp only [scenSplitPartsF, hm, hq, List.tail_cons, scapsOK]
          simp [hne, hnm, ih']
      | none =>
        have hcs : cs.length < f := by
          simp only [List.length_cons] at h
          omega
        have ih' := ih cs hcs
        cases hq : scenSplitPartsF f cs with
        | nil => exact absurd hq (scenSplitPartsF_ne f cs)
        | cons p ps =>
          rw [hq] at ih'
          simp only [List.tail_cons] at ih'
          simp only [scenSplitPartsF, hm, hq, List.tail_cons]
          exact ih'

theorem parseScenarioBlock_name (name : String) (blk : List Char) (s : Scenario)
    (h : AssignmentParser.parseScenarioBlock name blk = .ok s) : s.name = name := by
  unfold AssignmentParser.parseScenarioBlock at h
  dsimp only at h
  split at h
  · split at h
    · exact absurd h (by simp)
    · split at h
      · exact absurd h (by simp)
      · injection h with h'
        subst h'
        rfl
  · injection h with h'
    subst h'
    rfl

theorem all_stripWs (p : Char → Bool) (l : List Char) (h : l.all p = true) :
    (stripWs l).all p = true := by
  rw [List.all_eq_true] at h ⊢
  intro x hx
  apply h
  unfold stripWs rdropWs dropWs at hx
  rw [List.mem_reverse] at hx
  have hx2 : x ∈ (l.dropWhile isPyWs).reverse :=
    List.Sublist.mem hx (List.dropWhile_sublist _)
  rw [List.mem_reverse] at hx2
  exact List.Sublist.mem hx2 (List.dropWhile_sublist _)

theorem buildScenarios_names :
    ∀ l ss, scapsOK l = true → AssignmentParser.buildScenarios l = .ok ss →
      ∀ s ∈ ss, s.name.data.all isNameChar = true
  | [], ss, _, h => by
    injection h with h'
    subst h'
    intro s hs
    exact absurd hs (by simp)
  | [d], ss, hok, h => by simp [scapsOK] at hok
  | cap :: blk :: rest, ss, hok, h => by
    simp only [scapsOK, Bool.and_eq_true] at hok
    obtain ⟨⟨h1, h2⟩, h3⟩ := hok
    unfold AssignmentParser.buildScenarios at h
    cases hpb : AssignmentParser.parseScenarioBlock (String.mk (stripWs cap)) blk with
    | error e => rw [hpb] at h; exact absurd h (by simp)
    | ok s0 =>
      rw [hpb] at h
      dsimp only at h
      cases hbs : AssignmentParser.buildScenarios rest with
      | error e => rw [hbs] at h; exact absurd h (by simp)
      | ok ss' =>
        rw [hbs] at h
        injection h with h'
        subst h'
        intro s hs
        cases hs with
        | head =>
          rw [parseScenarioBlock_name _ _ _ hpb]
          exact all_stripWs isNameChar cap h2
        | tail _ hmem => exact buildScenarios_names rest ss' h3 hbs s hmem

theorem assignParse_scenarios (d : RawItem) (r : ParsedAssignment)
    (h : AssignmentParser.parse d = .ok r) :
    AssignmentParser.parseScenariosE
      ((AssignmentParser.splitHeaderAndBody (d.content.getD "")).2).data =
      .ok r.scenarios := by
  unfold AssignmentParser.parse at h
  cases hid : d.id with
  | none => rw [hid] at h; exact absurd h (by simp)
  | some n =>
    rw [hid] at h
    dsimp only at h
    cases hq : AssignmentParser.parseScenariosE
        ((AssignmentParser.splitHeaderAndBody (d.content.getD "")).2).data with
    | error e => rw [hq] at h; exact absurd h (by simp)
    | ok ss =>
      rw [hq] at h
      dsimp only at h
      injection h with h'
      subst h'
      rfl

theorem parseScenariosE_ok_cases (body : List Char) (ss : List Scenario)
    (h : AssignmentParser.parseScenariosE body = .ok ss) :
    ss = [] ∨ (scapsOK (scenSplitParts body).tail = true ∧
      AssignmentParser.buildScenarios (scenSplitParts body).tail = .ok ss) := by
  unfold AssignmentParser.parseScenariosE at h
  dsimp only at h
  split at h
  · injection h with h'
    exact Or.inl h'.symm
  · exact Or.inr ⟨scen_good (body.length + 1) body (by omega), h⟩

/-- Claim C6, amended: the segmenter is the regex scan, not a closed set
of standalone-line labels: every produced Section name is the trimmed
capture of the pattern before the Scenario: literal, so it consists only
of ASCII letters, digits, spaces and hyphens — an open-ended family of
names (see the counterexample for a mid-line prose capture). -/
theorem c6_names_are_regex_captures (d : RawItem) (r : ParsedAssignment) (s : Scenario)
    (h : AssignmentParser.parse d = .ok r) (hs : s ∈ r.scenarios) :
    s.name.data.all isNameChar = true := by
  have hsc := assignParse_scenarios d r h
  rcases parseScenariosE_ok_cases _ _ hsc with h0 | ⟨hok, hbs⟩
  · rw [h0] at hs
    exact absurd hs (by simp)
  · exact buildScenarios_names _ _ hok hbs s hs

/-- Witness for c6_names_are_regex_captures at a concrete record. -/
theorem c6_witness :
    AssignmentParser.parse w56Item = .ok w56Rec ∧
    w56Scen ∈ w56Rec.scenarios ∧
    w56Scen.name.data.all isNameChar = true :=
  ⟨by decide, by decide,
    c6_names_are_regex_captures w56Item w56Rec w56Scen (by decide) (by decide)⟩

/-! ## Claim C5: prompt fields are single trimmed strings -/

theorem dropWhile_idem (p : Char → Bool) :
    ∀ l : List Char, (l.dropWhile p).dropWhile p = l.dropWhile p
  | [] => rfl
  | c :: cs => by
    cases hp : p c with
    | true => simp [List.dropWhile_cons, hp, dropWhile_idem p cs]
    | false => simp [List.dropWhile_cons, hp]

theorem dropWs_idem (l : List Char) : dropWs (dropWs l) = dropWs l :=
  dropWhile_idem isPyWs l

theorem rdropWs_idem (l : List Char) : rdropWs (rdropWs l) = rdropWs l := by
  unfold rdropWs
  rw [List.reverse_reverse, dropWhile_idem]

theorem rdropWs_cons_of_not (c : Char) (cs : List Char) (hc : isPyWs c = false) :
    rdropWs (c :: cs) = c :: rdropWs cs := by
  unfold rdropWs
  rw [List.reverse_cons, List.dropWhile_append]
  split
  · rename_i hemp
    have h2 : List.dropWhile isPyWs cs.reverse = [] := by
      simpa using hemp
    simp [h2, List.dropWhile_cons, hc]
  · rw [List.reverse_append]
    simp

theorem dropWs_rdropWs_of_stripped (l : List Char) (h : dropWs l = l) :
    dropWs (rdropWs l) = rdropWs l := by
  cases l with
  | nil => rfl
  | cons c cs =>
    have hc : isPyWs c = false := by
      cases hp : isPyWs c with
      | false => rfl
      | true =>
        exfalso
        unfold dropWs at h
        rw [List.dropWhile_cons] at h
        rw [hp] at h
        simp at h
        have hlen := congrArg List.length h
        have hle : (List.dropWhile isPyWs cs).length ≤ cs.length :=
          (List.dropWhile_sublist _).length_le
        simp only [List.length_cons] at hlen
        omega
    rw [rdropWs_cons_of_not c cs hc]
    unfold dropWs
    rw [List.dropWhile_cons]
    rw [hc]
    simp

theorem stripWs_idem (l : List Char) : stripWs (stripWs l) = stripWs l := by
  unfold stripWs
  rw [dropWs_rdropWs_of_stripped (dropWs l) (dropWs_idem l), rdropWs_idem]

theorem parseScenarioBlock_fields (name : String) (blk : List Char) (s : Scenario)
    (h : AssignmentParser.parseScenarioBlock name blk = .ok s) :
    s.containment = pyStripStr s.containment ∧
    s.post_incident_activities = pyStripStr s.post_incident_activities ∧
    s.elevator_pitch = pyStripStr s.elevator_pitch := by
  unfold AssignmentParser.parseScenarioBlock at h
  dsimp only at h
  split at h
  · split at h
    · exact absurd h (by simp)
    · split at h
      · exact absurd h (by simp)
      · injection h with h'
        subst h'
        refine ⟨?_, ?_, ?_⟩
        · exact congrArg String.mk (stripWs_idem _).symm
        · exact congrArg String.mk (stripWs_idem _).symm
        · exact congrArg String.mk (stripWs_idem _).symm
  · injection h with h'
    subst h'
    refine ⟨?_, ?_, ?_⟩
    · exact congrArg String.mk (stripWs_idem _).symm
    · exact congrArg String.mk (stripWs_idem _).symm
    · exact congrArg String.mk (stripWs_idem _).symm

theorem buildScenarios_fields :
    ∀ l ss, AssignmentParser.buildScenarios l = .ok ss →
      ∀ s ∈ ss, s.containment = pyStripStr s.containment ∧
        s.post_incident_activities = pyStripStr s.post_incident_activities ∧
        s.elevator_pitch = pyStripStr s.elevator_pitch
  | [], ss, h => by
    injection h with h'
    subst h'
    intro s hs
    exact absurd hs (by simp)
  | [d], ss, h => by
    unfold AssignmentParser.buildScenarios at h
    exact absurd h (by simp)
  | cap :: blk :: rest, ss, h => by
    unfold AssignmentParser.buildScenarios at h
    cases hpb : AssignmentParser.parseScenarioBlock (String.mk (stripWs cap)) blk with
    | error e => rw [hpb] at h; exact absurd h (by simp)
    | ok s0 =>
      rw [hpb] at h
      dsimp only at h
      cases hbs : AssignmentParser.buildScenarios rest with
      | error e => rw [hbs] at h; exact absurd h (by simp)
      | ok ss' =>
        rw [hbs] at h
        injection h with h'
        subst h'
        intro s hs
        cases hs with
        | head => exact parseScenarioBlock_fields _ _ _ hpb
        | tail _ hmem => exact buildScenarios_fields rest ss' hbs s hmem

/-- Claim C5, amended: the parsed assignment record carries its scenarios
under the key scenarios (the record also has a meta field), and each
scenario's prompt fields containment, post_incident_activities and
elevator_pitch are single whitespace-trimmed strings holding the raw
span — interior blank lines preserved — not lists of non-blank trimmed
lines (see the counterexample). -/
theorem c5_prompts_are_single_strings (d : RawItem) (r : ParsedAssignment) (s : Scenario)
    (h : AssignmentParser.parse d = .ok r) (hs : s ∈ r.scenarios) :
    s.containment = pyStripStr s.containment ∧
    s.post_incident_activities = pyStripStr s.post_incident_activities ∧
    s.elevator_pitch = pyStripStr s.elevator_pitch := by
  have hsc := assignParse_scenarios d r h
  rcases parseScenariosE_ok_cases _ _ hsc with h0 | ⟨_, hbs⟩
  · rw [h0] at hs
    exact absurd hs (by simp)
  · exact buildScenarios_fields _ _ hbs s hs

/-- Witness for c5_prompts_are_single_strings at a concrete record. -/
theorem c5_witness :
    AssignmentParser.parse w56Item = .ok w56Rec ∧
    w56Scen ∈ w56Rec.scenarios ∧
    (w56Scen.containment = pyStripStr w56Scen.containment ∧
      w56Scen.post_incident_activities = pyStripStr w56Scen.post_incident_activities ∧
      w56Scen.elevator_pitch = pyStripStr w56Scen.elevator_pitch) :=
  ⟨by decide, by decide,
    c5_prompts_are_single_strings w56Item w56Rec w56Scen (by decide) (by decide)⟩
